import Mathlib

/-!
Shallow embedding of the trading scripts of this repository, used to check the
natural-language specification against the code.

`Backtest` embeds the per-bar loop of `src/backtest.py` (`backtest`), its entry
sizing (lines 100-116), stop-loss (129-141), ladder of staged exits (145-162),
trend exit (164-175) and forced liquidation (177-187).  Machine floats are
modelled by exact rationals.  A pandas NaN / absent column is modelled by
`Option.none`.  The source logs display-rounded copies of price / cash
(`round(x, 2)`) next to the exact values it keeps computing with; the embedded
trade records keep the exact values the accounting uses, and omit the
timestamp and the display-only `cash_after` / `pnl_%` fields.

`Gainer` embeds the candidate bookkeeping of `src/gainer.py` (`run_loop`,
lines 211-289): registration of instruments newly in the top-N, one-shot
evaluation at the following round, and unconditional expiry afterwards.
-/

namespace Backtest

/-- Configuration constants of `src/backtest.py` (lines 12-30), gathered in a
structure so theorems can quantify over them. -/
structure Config where
  investRatio : ℚ      -- INVEST_RATIO
  feeRate : ℚ          -- FEE_RATE
  slippage : ℚ         -- SLIPPAGE
  triggers : List ℚ    -- PARTIAL_TRIGGERS (percent over entry)
  fraction : ℚ         -- PARTIAL_FRACTION (of current remaining units)
  stopLossPct : ℚ      -- STOP_LOSS_PCT (negative percent)
  exitOnTenkanSlope : Bool  -- EXIT_ON_TENKAN_SLOPE
deriving DecidableEq

/-- The constants as set in the source: ratio 1.00, fee 0.0005, slippage
0.0005, ladder [0.5, 1.0, 1.5, 2.0] at 25% each, stop-loss -1.0%. -/
def defaultConfig : Config :=
  { investRatio := 1
    feeRate := 5/10000
    slippage := 5/10000
    triggers := [1/2, 1, 3/2, 2]
    fraction := 1/4
    stopLossPct := -1
    exitOnTenkanSlope := true }

/-- INITIAL_CASH (line 12). -/
def INITIAL_CASH : ℚ := 100000

/-- One row of the indicator-augmented dataframe.  Every column the loop reads
is a field; `none` models NaN / missing. -/
structure Bar where
  tenkan : Option ℚ
  tenkan_prev : Option ℚ
  kijun : Option ℚ
  di_pos : Option ℚ
  di_neg : Option ℚ
  stoch_k : Option ℚ
  stoch_d : Option ℚ
  sma48 : Option ℚ
  buy_sig : Option Bool
  high : Option ℚ
  low : Option ℚ
  close : Option ℚ
deriving DecidableEq

/-- `any(pd.isna(row[c]) for c in cols_needed)` (lines 89-92): true when any
needed column is missing. -/
def Bar.hasNaN (b : Bar) : Bool :=
  b.tenkan.isNone || b.tenkan_prev.isNone || b.kijun.isNone ||
  b.di_pos.isNone || b.di_neg.isNone || b.stoch_k.isNone ||
  b.stoch_d.isNone || b.sma48.isNone || b.buy_sig.isNone ||
  b.high.isNone || b.low.isNone || b.close.isNone

inductive Side
  | buy
  | sell
deriving DecidableEq

/-- The `note` strings of the source records, one constructor per branch that
emits a record. -/
inductive Reason
  | entry                 -- "조건매수(...)"
  | stopLoss              -- "손절 -1.0%"
  | ladderExit (thr : ℚ)  -- "부분청산 +{thr}%"
  | trend                 -- "텐칸 기울기 하락"
  | forced                -- "종가 강제청산"
deriving DecidableEq

/-- One entry of `records` (exact values; see module comment). -/
structure Rec where
  side : Side
  price : ℚ
  qty : ℚ
  reason : Reason
deriving DecidableEq

/-- The loop state of `backtest` (lines 80-88): `cash`, `units`, `entry`,
`in_pos`, the fired-trigger bookkeeping `hit` and the record list.  The source
keeps `hit` as a dict `{thr: bool}`; we keep the list of thresholds whose flag
is `True` (membership = flag set).  Before the first entry the source has
`hit = None`; we start from the empty list, which is never read before entry
resets it. -/
structure BState where
  cash : ℚ
  units : ℚ
  entry : Option ℚ
  in_pos : Bool
  hit : List ℚ
  records : List Rec
deriving DecidableEq

def initState (c0 : ℚ) : BState :=
  { cash := c0, units := 0, entry := none, in_pos := false, hit := [], records := [] }

/-- Entry sizing, lines 100-116 of `src/backtest.py`, factored out as the
spec's `computeBuy`.  Returns `(fillPrice, quantity, outlay)` or `none` when
the source hits a `continue` (budget ≤ 0, or re-solved quantity ≤ 0). -/
def computeBuy (cfg : Config) (price cash : ℚ) : Option (ℚ × ℚ × ℚ) :=
  let buy := price * (1 + cfg.slippage)
  let budget := cash * cfg.investRatio
  if budget ≤ 0 then none
  else
    let qty := budget / buy
    let cost := buy * qty
    let fee := cost * cfg.feeRate
    let out := cost + fee
    if cash < out then
      let qty2 := cash / (buy * (1 + cfg.feeRate))
      if qty2 ≤ 0 then none
      else
        let cost2 := buy * qty2
        let fee2 := cost2 * cfg.feeRate
        some (buy, qty2, cost2 + fee2)
    else some (buy, qty, out)

/-- The staged-exit loop `for thr in sorted(PARTIAL_TRIGGERS)` (lines
145-162), threading `units`, `cash`, the fired set and the records.  `e` is
the entry price, `hi` the bar's high. -/
def runLadder (cfg : Config) (e hi : ℚ) :
    List ℚ → ℚ → ℚ → List ℚ → List Rec → ℚ × ℚ × List ℚ × List Rec
  | [], units, cash, hitL, recs => (units, cash, hitL, recs)
  | thr :: rest, units, cash, hitL, recs =>
    if units ≤ 0 then (units, cash, hitL, recs)
    else if thr ∈ hitL then runLadder cfg e hi rest units cash hitL recs
    else
      let target := e * (1 + thr / 100)
      if target ≤ hi then
        let sellQty := units * cfg.fraction
        let proceed := target * sellQty
        let fee := proceed * cfg.feeRate
        runLadder cfg e hi rest (units - sellQty) (cash + (proceed - fee))
          (thr :: hitL)
          (recs ++ [{ side := Side.sell, price := target, qty := sellQty,
                      reason := Reason.ladderExit thr }])
      else runLadder cfg e hi rest units cash hitL recs

/-- Insert into an ascending list, keeping it ascending. -/
def insertAsc (x : ℚ) : List ℚ → List ℚ
  | [] => [x]
  | y :: ys => if x ≤ y then x :: y :: ys else y :: insertAsc x ys

/-- `sorted(PARTIAL_TRIGGERS)` (line 145): ascending sort of the thresholds
(insertion sort; on rationals every correct ascending sort yields the same
list, duplicates being indistinguishable values). -/
def sortTrig (l : List ℚ) : List ℚ :=
  l.foldr insertAsc []

/-- One iteration of `for ts, row in df.iterrows()` (lines 91-175). -/
def step (cfg : Config) (s : BState) (b : Bar) : BState :=
  if b.hasNaN then s
  else
    let price := b.close.getD 0
    let hi := b.high.getD 0
    let lo := b.low.getD 0
    if ¬ s.in_pos ∧ b.buy_sig.getD false then
      match computeBuy cfg price s.cash with
      | none => s
      | some (buy, qty, out) =>
          { cash := s.cash - out, units := qty, entry := some buy, in_pos := true,
            hit := [],
            records := s.records ++
              [{ side := Side.buy, price := buy, qty := qty, reason := Reason.entry }] }
    else if s.in_pos then
      let e := s.entry.getD 0
      let stopLossPrice := e * (1 + cfg.stopLossPct / 100)
      if lo ≤ stopLossPrice ∧ 0 < s.units then
        let sell := stopLossPrice * (1 - cfg.slippage)
        let proceed := sell * s.units
        let fee := proceed * cfg.feeRate
        { cash := s.cash + (proceed - fee), units := 0, entry := none, in_pos := false,
          hit := s.hit,
          records := s.records ++
            [{ side := Side.sell, price := sell, qty := s.units, reason := Reason.stopLoss }] }
      else
        let L := runLadder cfg e hi (sortTrig cfg.triggers) s.units s.cash s.hit s.records
        if cfg.exitOnTenkanSlope ∧ 0 < L.1 ∧ b.tenkan.getD 0 < b.tenkan_prev.getD 0 then
          let sell := price * (1 - cfg.slippage)
          let proceed := sell * L.1
          let fee := proceed * cfg.feeRate
          { cash := L.2.1 + (proceed - fee), units := 0, entry := none, in_pos := false,
            hit := L.2.2.1,
            records := L.2.2.2 ++
              [{ side := Side.sell, price := sell, qty := L.1, reason := Reason.trend }] }
        else
          { cash := L.2.1, units := L.1, entry := s.entry, in_pos := true,
            hit := L.2.2.1, records := L.2.2.2 }
    else s

/-- The whole `for` loop over the dataframe. -/
def runBars (cfg : Config) (s : BState) (bars : List Bar) : BState :=
  bars.foldl (step cfg) s

/-- Forced liquidation of a still-open position (lines 177-187); `lastClose`
is the last bar's close (`df.iloc[-1]['close']`). -/
def forceExit (cfg : Config) (lastClose : ℚ) (s : BState) : BState :=
  if s.in_pos then
    let last := lastClose * (1 - cfg.slippage)
    let proceed := last * s.units
    let fee := proceed * cfg.feeRate
    { cash := s.cash + (proceed - fee), units := 0, entry := none, in_pos := false,
      hit := s.hit,
      records := s.records ++
        [{ side := Side.sell, price := last, qty := s.units, reason := Reason.forced }] }
  else s

/-- `backtest(df)` (lines 79-205): the loop followed by forced liquidation
when the frame is non-empty.  (If the last close were NaN the source would
sell at a NaN price; we read it as 0, which no claim touches.) -/
def backtest (cfg : Config) (c0 : ℚ) (bars : List Bar) : BState :=
  let s := runBars cfg (initState c0) bars
  match bars.getLast? with
  | none => s
  | some b => forceExit cfg (b.close.getD 0) s

/-! ### Bookkeeping helpers over record lists -/

/-- Total quantity of a record list. -/
def qtySum (l : List Rec) : ℚ := (l.map Rec.qty).sum

/-- Net cash effect of a list of sell records: price × qty × (1 − fee) each. -/
def netSum (cfg : Config) (l : List Rec) : ℚ :=
  (l.map (fun x => x.price * x.qty * (1 - cfg.feeRate))).sum

/-- The ladder threshold of a record, when it is a staged-exit record. -/
def thrOf (x : Rec) : Option ℚ :=
  match x.reason with
  | Reason.ladderExit t => some t
  | _ => none

/-- The ladder thresholds mentioned in a record list, in order. -/
def thrsOf (l : List Rec) : List ℚ := l.filterMap thrOf

/-- Total bought quantity of a record list. -/
def buyQty (l : List Rec) : ℚ :=
  ((l.filter (fun x => x.side == Side.buy)).map Rec.qty).sum

/-- Total sold quantity of a record list. -/
def sellQty (l : List Rec) : ℚ :=
  ((l.filter (fun x => x.side == Side.sell)).map Rec.qty).sum

theorem qtySum_append (l₁ l₂ : List Rec) : qtySum (l₁ ++ l₂) = qtySum l₁ + qtySum l₂ := by
  simp [qtySum]

theorem netSum_append (cfg : Config) (l₁ l₂ : List Rec) :
    netSum cfg (l₁ ++ l₂) = netSum cfg l₁ + netSum cfg l₂ := by
  simp [netSum]

theorem thrsOf_append (l₁ l₂ : List Rec) : thrsOf (l₁ ++ l₂) = thrsOf l₁ ++ thrsOf l₂ := by
  simp [thrsOf]

theorem buyQty_append (l₁ l₂ : List Rec) : buyQty (l₁ ++ l₂) = buyQty l₁ + buyQty l₂ := by
  simp [buyQty]

theorem sellQty_append (l₁ l₂ : List Rec) : sellQty (l₁ ++ l₂) = sellQty l₁ + sellQty l₂ := by
  simp [sellQty]

theorem sellQty_of_sells (l : List Rec) (h : ∀ x ∈ l, x.side = Side.sell) :
    sellQty l = qtySum l ∧ buyQty l = 0 := by
  induction l with
  | nil => simp [sellQty, buyQty, qtySum]
  | cons x xs ih =>
      have hx := h x (List.mem_cons_self x xs)
      obtain ⟨ih1, ih2⟩ := ih fun y hy => h y (List.mem_cons_of_mem x hy)
      simp only [sellQty, buyQty, qtySum, List.filter_cons, hx] at ih1 ih2 ⊢
      simp only [show (Side.sell == Side.buy) = false from rfl,
        show (Side.sell == Side.sell) = true from rfl, if_true, if_false,
        List.map_cons, List.sum_cons]
      exact ⟨by rw [ih1], ih2⟩

theorem buyQty_single_sell (p q : ℚ) (r : Reason) :
    buyQty [{ side := Side.sell, price := p, qty := q, reason := r }] = 0 := by
  simp [buyQty]

theorem sellQty_single_sell (p q : ℚ) (r : Reason) :
    sellQty [{ side := Side.sell, price := p, qty := q, reason := r }] = q := by
  simp [sellQty]

theorem buyQty_single_buy (p q : ℚ) (r : Reason) :
    buyQty [{ side := Side.buy, price := p, qty := q, reason := r }] = q := by
  simp [buyQty]

theorem sellQty_single_buy (p q : ℚ) (r : Reason) :
    sellQty [{ side := Side.buy, price := p, qty := q, reason := r }] = 0 := by
  simp [sellQty]

/-! ### Ladder analysis -/

/-- Ghost function: the records one `runLadder` call appends, as a function of
the thresholds, the running units and the fired set. -/
def ladderRecs (cfg : Config) (e hi : ℚ) : List ℚ → ℚ → List ℚ → List Rec
  | [], _, _ => []
  | thr :: rest, units, hitL =>
    if units ≤ 0 then []
    else if thr ∈ hitL then ladderRecs cfg e hi rest units hitL
    else if e * (1 + thr / 100) ≤ hi then
      { side := Side.sell, price := e * (1 + thr / 100), qty := units * cfg.fraction,
        reason := Reason.ladderExit thr }
        :: ladderRecs cfg e hi rest (units - units * cfg.fraction) (thr :: hitL)
    else ladderRecs cfg e hi rest units hitL

/-- `runLadder` in terms of `ladderRecs`: units drop by the sold total, cash
rises by the fee-adjusted proceeds, the fired set grows by the fired
thresholds, and the records extend by exactly the emitted ones. -/
theorem runLadder_eq (cfg : Config) (e hi : ℚ) :
    ∀ (trigs : List ℚ) (u c : ℚ) (hitL : List ℚ) (r : List Rec),
      runLadder cfg e hi trigs u c hitL r =
        (u - qtySum (ladderRecs cfg e hi trigs u hitL),
         c + netSum cfg (ladderRecs cfg e hi trigs u hitL),
         (thrsOf (ladderRecs cfg e hi trigs u hitL)).reverse ++ hitL,
         r ++ ladderRecs cfg e hi trigs u hitL) := by
  intro trigs
  induction trigs with
  | nil => intro u c hitL r; simp [runLadder, ladderRecs, qtySum, netSum, thrsOf]
  | cons thr rest ih =>
      intro u c hitL r
      by_cases hu : u ≤ 0
      · simp [runLadder, ladderRecs, hu, qtySum, netSum, thrsOf]
      · by_cases hh : thr ∈ hitL
        · simp only [runLadder, ladderRecs, if_neg hu, if_pos hh]
          exact ih u c hitL r
        · by_cases ht : e * (1 + thr / 100) ≤ hi
          · simp only [runLadder, ladderRecs, if_neg hu, if_neg hh, if_pos ht]
            rw [ih]
            refine Prod.ext ?_ (Prod.ext ?_ (Prod.ext ?_ ?_)) <;>
              simp [qtySum, netSum, thrsOf, thrOf]
            · ring
            · ring
          · simp only [runLadder, ladderRecs, if_neg hu, if_neg hh, if_neg ht]
            exact ih u c hitL r

/-- Every threshold fired in one ladder pass was not already in the fired set. -/
theorem ladderRecs_thrs_fresh (cfg : Config) (e hi : ℚ) :
    ∀ (trigs : List ℚ) (u : ℚ) (hitL : List ℚ) (t : ℚ),
      t ∈ thrsOf (ladderRecs cfg e hi trigs u hitL) → t ∉ hitL := by
  intro trigs
  induction trigs with
  | nil => intro u hitL t ht; simp [ladderRecs, thrsOf] at ht
  | cons thr rest ih =>
      intro u hitL t ht
      by_cases hu : u ≤ 0
      · simp [ladderRecs, hu, thrsOf] at ht
      · by_cases hh : thr ∈ hitL
        · simp only [ladderRecs, if_neg hu, if_pos hh] at ht
          exact ih u hitL t ht
        · by_cases htar : e * (1 + thr / 100) ≤ hi
          · simp only [ladderRecs, if_neg hu, if_neg hh, if_pos htar, thrsOf,
              List.filterMap_cons] at ht
            simp only [thrOf] at ht
            rcases List.mem_cons.mp ht with h1 | h2
            · subst h1; exact hh
            · have := ih (u - u * cfg.fraction) (thr :: hitL) t h2
              exact fun hmem => this (List.mem_cons_of_mem thr hmem)
          · simp only [ladderRecs, if_neg hu, if_neg hh, if_neg htar] at ht
            exact ih u hitL t ht

/-- The thresholds fired in one ladder pass are pairwise distinct. -/
theorem ladderRecs_thrs_nodup (cfg : Config) (e hi : ℚ) :
    ∀ (trigs : List ℚ) (u : ℚ) (hitL : List ℚ),
      (thrsOf (ladderRecs cfg e hi trigs u hitL)).Nodup := by
  intro trigs
  induction trigs with
  | nil => intro u hitL; simp [ladderRecs, thrsOf]
  | cons thr rest ih =>
      intro u hitL
      by_cases hu : u ≤ 0
      · simp [ladderRecs, hu, thrsOf]
      · by_cases hh : thr ∈ hitL
        · simp only [ladderRecs, if_neg hu, if_pos hh]; exact ih u hitL
        · by_cases htar : e * (1 + thr / 100) ≤ hi
          · simp only [ladderRecs, if_neg hu, if_neg hh, if_pos htar, thrsOf,
              List.filterMap_cons]
            simp only [thrOf]
            refine List.nodup_cons.mpr ⟨?_, ih (u - u * cfg.fraction) (thr :: hitL)⟩
            intro hmem
            exact ladderRecs_thrs_fresh cfg e hi rest (u - u * cfg.fraction)
              (thr :: hitL) thr hmem (List.mem_cons_self thr hitL)
          · simp only [ladderRecs, if_neg hu, if_neg hh, if_neg htar]
            exact ih u hitL

/-- Every record a ladder pass emits is a sell at the threshold target price,
for a threshold drawn from the trigger list. -/
theorem ladderRecs_sell (cfg : Config) (e hi : ℚ) :
    ∀ (trigs : List ℚ) (u : ℚ) (hitL : List ℚ) (x : Rec),
      x ∈ ladderRecs cfg e hi trigs u hitL →
        x.side = Side.sell ∧
        ∃ t, x.reason = Reason.ladderExit t ∧ t ∈ trigs ∧
          x.price = e * (1 + t / 100) := by
  intro trigs
  induction trigs with
  | nil => intro u hitL x hx; simp [ladderRecs] at hx
  | cons thr rest ih =>
      intro u hitL x hx
      by_cases hu : u ≤ 0
      · simp [ladderRecs, hu] at hx
      · by_cases hh : thr ∈ hitL
        · simp only [ladderRecs, if_neg hu, if_pos hh] at hx
          obtain ⟨hs, t, h1, h2, h3⟩ := ih u hitL x hx
          exact ⟨hs, t, h1, List.mem_cons_of_mem thr h2, h3⟩
        · by_cases htar : e * (1 + thr / 100) ≤ hi
          · simp only [ladderRecs, if_neg hu, if_neg hh, if_pos htar] at hx
            rcases List.mem_cons.mp hx with h1 | h2
            · subst h1
              exact ⟨rfl, thr, rfl, List.mem_cons_self thr rest, rfl⟩
            · obtain ⟨hs, t, ha, hb, hc⟩ :=
                ih (u - u * cfg.fraction) (thr :: hitL) x h2
              exact ⟨hs, t, ha, List.mem_cons_of_mem thr hb, hc⟩
          · simp only [ladderRecs, if_neg hu, if_neg hh, if_neg htar] at hx
            obtain ⟨hs, t, h1, h2, h3⟩ := ih u hitL x hx
            exact ⟨hs, t, h1, List.mem_cons_of_mem thr h2, h3⟩

/-- A ladder pass keeps the remaining units non-negative and only sells
non-negative quantities, when the fraction lies in [0, 1]. -/
theorem ladderRecs_nonneg (cfg : Config) (e hi : ℚ)
    (hfr0 : 0 ≤ cfg.fraction) (hfr1 : cfg.fraction ≤ 1) :
    ∀ (trigs : List ℚ) (u : ℚ) (hitL : List ℚ), 0 ≤ u →
      0 ≤ u - qtySum (ladderRecs cfg e hi trigs u hitL) ∧
      ∀ x ∈ ladderRecs cfg e hi trigs u hitL, 0 ≤ x.qty := by
  intro trigs
  induction trigs with
  | nil => intro u hitL hu; simp [ladderRecs, qtySum, hu]
  | cons thr rest ih =>
      intro u hitL hu
      by_cases hu0 : u ≤ 0
      · simp [ladderRecs, hu0, qtySum, hu]
      · by_cases hh : thr ∈ hitL
        · simp only [ladderRecs, if_neg hu0, if_pos hh]; exact ih u hitL hu
        · by_cases htar : e * (1 + thr / 100) ≤ hi
          · simp only [ladderRecs, if_neg hu0, if_neg hh, if_pos htar]
            have hq : 0 ≤ u * cfg.fraction := mul_nonneg hu hfr0
            have hu' : 0 ≤ u - u * cfg.fraction := by nlinarith
            obtain ⟨h1, h2⟩ := ih (u - u * cfg.fraction) (thr :: hitL) hu'
            refine ⟨?_, ?_⟩
            · simp only [qtySum, List.map_cons, List.sum_cons] at h1 ⊢
              linarith [h1]
            · intro x hx
              rcases List.mem_cons.mp hx with h3 | h4
              · subst h3; exact hq
              · exact h2 x h4
          · simp only [ladderRecs, if_neg hu0, if_neg hh, if_neg htar]
            exact ih u hitL hu

theorem mem_insertAsc (x t : ℚ) : ∀ l : List ℚ, t ∈ insertAsc x l ↔ t = x ∨ t ∈ l := by
  intro l
  induction l with
  | nil => simp [insertAsc]
  | cons y ys ih =>
      by_cases h : x ≤ y
      · simp [insertAsc, h]
      · simp [insertAsc, h, ih]
        tauto

theorem mem_sortTrig (t : ℚ) : ∀ l : List ℚ, t ∈ sortTrig l ↔ t ∈ l := by
  intro l
  induction l with
  | nil => simp [sortTrig]
  | cons y ys ih =>
      simp only [sortTrig, List.foldr_cons] at ih ⊢
      rw [mem_insertAsc, ih, List.mem_cons]

/-! ### Entry sizing -/

/-- Characterisation of a successful `computeBuy`: the fill price, the outlay
identity, outlay bounded by cash, the re-solve equation when the naive outlay
overshoots, positivity of the budget and sign facts. -/
theorem computeBuy_spec (cfg : Config) (price cash buy qty out : ℚ)
    (h : computeBuy cfg price cash = some (buy, qty, out)) :
    buy = price * (1 + cfg.slippage) ∧
    0 < cash * cfg.investRatio ∧
    out = buy * qty * (1 + cfg.feeRate) ∧
    out ≤ cash ∧
    (cash < buy * (cash * cfg.investRatio / buy)
        + buy * (cash * cfg.investRatio / buy) * cfg.feeRate →
      qty = cash / (buy * (1 + cfg.feeRate)) ∧ out = cash) ∧
    (0 ≤ price → 0 ≤ cfg.slippage → 0 ≤ buy ∧ 0 ≤ qty) := by
  simp only [computeBuy] at h
  split_ifs at h with h1 h2 h3
  · -- re-solved branch
    rw [Option.some.injEq, Prod.mk.injEq, Prod.mk.injEq] at h
    obtain ⟨hb, hq, ho⟩ := h
    subst hb; subst hq; subst ho
    push_neg at h1 h3
    set buy := price * (1 + cfg.slippage) with hbuy
    have hd : buy * (1 + cfg.feeRate) ≠ 0 := by
      intro h0
      rw [h0, div_zero] at h3
      exact absurd h3 (lt_irrefl 0)
    have hcash : buy * (cash / (buy * (1 + cfg.feeRate)))
        + buy * (cash / (buy * (1 + cfg.feeRate))) * cfg.feeRate = cash := by
      field_simp
      ring
    refine ⟨rfl, h1, by ring, le_of_eq hcash, fun _ => ⟨rfl, hcash⟩, fun hp hs => ?_⟩
    constructor
    · exact mul_nonneg hp (by linarith)
    · exact le_of_lt h3
  · -- naive branch fits
    rw [Option.some.injEq, Prod.mk.injEq, Prod.mk.injEq] at h
    obtain ⟨hb, hq, ho⟩ := h
    subst hb; subst hq; subst ho
    push_neg at h1 h2
    refine ⟨rfl, h1, by ring, h2, fun hlt => absurd hlt (not_lt.mpr h2), fun hp hs => ?_⟩
    constructor
    · exact mul_nonneg hp (by linarith)
    · exact div_nonneg (le_of_lt h1) (mul_nonneg hp (by linarith))

/-! ### Claim theorems for the backtest engine -/

/-- C4: the entry sizing never spends more than the supplied budget (the
source's budget is `cash × INVEST_RATIO` with `INVEST_RATIO = 1`, so the
budget is the cash): a successful `computeBuy` returns a quantity whose total
outlay `qty × fillPrice × (1 + feeRate)` is at most the budget, and whenever
the naive quantity `budget / fillPrice` would overshoot, the quantity is
re-solved as `budget / (fillPrice × (1 + feeRate))` and the outlay equals the
budget exactly. -/
theorem c4_computeBuy_budget_safety (cfg : Config) (price cash buy qty out : ℚ)
    (hratio : cfg.investRatio = 1) (hfee : 0 ≤ cfg.feeRate)
    (hprice : 0 < price) (hcash : 0 < cash)
    (h : computeBuy cfg price cash = some (buy, qty, out)) :
    qty * buy * (1 + cfg.feeRate) ≤ cash ∧
    (cash < (cash / buy) * buy * (1 + cfg.feeRate) →
      qty = cash / (buy * (1 + cfg.feeRate)) ∧
      qty * buy * (1 + cfg.feeRate) = cash) := by
  obtain ⟨hb, hbud, hout, hle, hres, hsgn⟩ := computeBuy_spec cfg price cash buy qty out h
  have h1 : qty * buy * (1 + cfg.feeRate) = out := by rw [hout]; ring
  refine ⟨(le_of_eq h1).trans hle, fun hcond => ?_⟩
  have h2 : cash < buy * (cash * cfg.investRatio / buy)
      + buy * (cash * cfg.investRatio / buy) * cfg.feeRate := by
    rw [hratio, mul_one]
    calc cash < (cash / buy) * buy * (1 + cfg.feeRate) := hcond
    _ = buy * (cash / buy) + buy * (cash / buy) * cfg.feeRate := by ring
  obtain ⟨hq, ho⟩ := hres h2
  exact ⟨hq, by rw [h1, ho]⟩

/-- C4 witness: budget 1000 at reference price 100 under the source fee and
slippage; the naive outlay 1000.5 overshoots, the re-solved quantity is
40000000/4004001 and the outlay is exactly 1000. -/
theorem c4_witness :
    defaultConfig.investRatio = 1 ∧ 0 ≤ defaultConfig.feeRate ∧
    (0:ℚ) < 100 ∧ (0:ℚ) < 1000 ∧
    computeBuy defaultConfig 100 1000 = some (2001/20, 40000000/4004001, 1000) ∧
    ((40000000/4004001 : ℚ) * (2001/20) * (1 + defaultConfig.feeRate) ≤ 1000 ∧
     ((1000:ℚ) < (1000 / (2001/20)) * (2001/20) * (1 + defaultConfig.feeRate) →
       (40000000/4004001 : ℚ) = 1000 / ((2001/20) * (1 + defaultConfig.feeRate)) ∧
       (40000000/4004001 : ℚ) * (2001/20) * (1 + defaultConfig.feeRate) = 1000)) :=
  ⟨rfl, by norm_num [defaultConfig], by norm_num, by norm_num,
   by norm_num [computeBuy, defaultConfig],
   c4_computeBuy_budget_safety defaultConfig 100 1000 (2001/20) (40000000/4004001) 1000
     rfl (by norm_num [defaultConfig]) (by norm_num) (by norm_num)
     (by norm_num [computeBuy, defaultConfig])⟩

/-- C8: a bar with any required indicator or OHLC column missing (NaN) is
skipped entirely: the whole state — cash, units, entry, position flag, fired
triggers and trade log — is unchanged. -/
theorem c8_nan_bar_skipped (cfg : Config) (s : BState) (b : Bar)
    (h : b.hasNaN = true) : step cfg s b = s := by
  simp [step, h]

/-- In-position state used to witness C8. -/
def c8s : BState :=
  { cash := 500, units := 3, entry := some 100, in_pos := true, hit := [1/2], records := [] }

/-- A bar whose `sma48` is NaN but whose prices would otherwise fire the
stop-loss. -/
def c8b : Bar :=
  { tenkan := some 5, tenkan_prev := some 6, kijun := some 0, di_pos := some 0,
    di_neg := some 0, stoch_k := some 0, stoch_d := some 0, sma48 := none,
    buy_sig := some true, high := some 102, low := some 90, close := some 95 }

/-- C8 witness: the NaN bar leaves the in-position state untouched. -/
theorem c8_witness : step defaultConfig c8s c8b = c8s :=
  c8_nan_bar_skipped defaultConfig c8s c8b rfl

/-- C1: on a bar where the position is open and the low reaches the stop-loss
threshold, only the stop-loss exit executes: the full remaining quantity is
sold, the position closes, the fired-trigger set is untouched (no ladder rung
is marked fired) and no trend check runs — the resulting state is completely
determined without reference to the bar's high or tenkan slope. -/
theorem c1_stop_loss_precedence (cfg : Config) (s : BState) (b : Bar) (e : ℚ)
    (hval : b.hasNaN = false) (hpos : s.in_pos = true) (he : s.entry = some e)
    (hu : 0 < s.units)
    (hlow : b.low.getD 0 ≤ e * (1 + cfg.stopLossPct / 100)) :
    step cfg s b =
      { cash := s.cash + (e * (1 + cfg.stopLossPct / 100) * (1 - cfg.slippage) * s.units
          - e * (1 + cfg.stopLossPct / 100) * (1 - cfg.slippage) * s.units * cfg.feeRate),
        units := 0, entry := none, in_pos := false, hit := s.hit,
        records := s.records ++
          [{ side := Side.sell,
             price := e * (1 + cfg.stopLossPct / 100) * (1 - cfg.slippage),
             qty := s.units, reason := Reason.stopLoss }] } := by
  simp [step, hval, hpos, he, hu, hlow]

/-- In-position state used to witness C1. -/
def c1s : BState :=
  { cash := 10, units := 2, entry := some 100, in_pos := true, hit := [], records := [] }

/-- A bar whose low crosses the −1% stop-loss threshold 99 while its high 102
also crosses every ladder threshold (100.5 … 102). -/
def c1b : Bar :=
  { tenkan := some 5, tenkan_prev := some 4, kijun := some 0, di_pos := some 0,
    di_neg := some 0, stoch_k := some 0, stoch_d := some 0, sma48 := some 0,
    buy_sig := some false, high := some 102, low := some 90, close := some 95 }

/-- C1 witness: with the high crossing all four ladder rungs, the step sells
the full 2 units by stop-loss, marks no trigger and closes the position. -/
theorem c1_witness :
    step defaultConfig c1s c1b =
      { cash := 10 + (197901/1000 - 197901/2000000),
        units := 0, entry := none, in_pos := false, hit := [],
        records := [{ side := Side.sell, price := 197901/2000, qty := 2,
                      reason := Reason.stopLoss }] } := by
  have h := c1_stop_loss_precedence defaultConfig c1s c1b 100 rfl rfl rfl
    (by norm_num [c1s]) (by norm_num [c1b, defaultConfig])
  rw [h]
  norm_num [c1s, defaultConfig]

/-- C5: when the stop-loss fires, the sell record is priced at exactly the
threshold `entry × (1 + stopLossPct/100)` times the sell-side slippage factor
`(1 − slippage)`, a formula that does not mention the bar's low at all. -/
theorem c5_stop_loss_fill_price (cfg : Config) (s : BState) (b : Bar) (e : ℚ)
    (hval : b.hasNaN = false) (hpos : s.in_pos = true) (he : s.entry = some e)
    (hu : 0 < s.units)
    (hlow : b.low.getD 0 ≤ e * (1 + cfg.stopLossPct / 100)) :
    (step cfg s b).records = s.records ++
      [{ side := Side.sell,
         price := e * (1 + cfg.stopLossPct / 100) * (1 - cfg.slippage),
         qty := s.units, reason := Reason.stopLoss }] := by
  simp [step, hval, hpos, he, hu, hlow]

/-- In-position state used to witness C5 (entry price 100). -/
def c5s : BState :=
  { cash := 10, units := 2, entry := some 100, in_pos := true, hit := [], records := [] }

/-- A bar whose low 90 is strictly below the stop threshold 99. -/
def c5b : Bar :=
  { tenkan := some 5, tenkan_prev := some 4, kijun := some 0, di_pos := some 0,
    di_neg := some 0, stoch_k := some 0, stoch_d := some 0, sma48 := some 0,
    buy_sig := some false, high := some 100, low := some 90, close := some 95 }

/-- C5 witness: the stop from entry 100 sells at exactly 99 × (1 − slippage),
not at the bar's strictly lower low 90. -/
theorem c5_witness :
    (step defaultConfig c5s c5b).records =
      [{ side := Side.sell, price := 99 * (1 - defaultConfig.slippage), qty := 2,
         reason := Reason.stopLoss }] ∧
    (99 * (1 - defaultConfig.slippage) : ℚ) ≠ 90 := by
  constructor
  · have h := c5_stop_loss_fill_price defaultConfig c5s c5b 100 rfl rfl rfl
      (by norm_num [c5s]) (by norm_num [c5b, defaultConfig])
    rw [h]
    norm_num [c5s, defaultConfig]
  · norm_num [defaultConfig]

/-- C10: on the bar where an entry fires, the per-tick update short-circuits
after the buy: the new state records exactly one BUY, an empty fired set and
an open position, independent of the bar's low, high and tenkan slope — no
stop-loss, ladder or trend-exit check runs on the entry bar. -/
theorem c10_entry_short_circuit (cfg : Config) (s : BState) (b : Bar)
    (buy qty out : ℚ)
    (hval : b.hasNaN = false) (hflat : s.in_pos = false)
    (hsig : b.buy_sig = some true)
    (hcb : computeBuy cfg (b.close.getD 0) s.cash = some (buy, qty, out)) :
    step cfg s b =
      { cash := s.cash - out, units := qty, entry := some buy, in_pos := true,
        hit := [],
        records := s.records ++
          [{ side := Side.buy, price := buy, qty := qty, reason := Reason.entry }] } := by
  simp [step, hval, hflat, hsig, hcb]

/-- Flat state used to witness C10. -/
def c10s : BState :=
  { cash := 1000, units := 0, entry := none, in_pos := false, hit := [], records := [] }

/-- A bar with a buy signal whose low 1 is far below any stop threshold and
whose tenkan slope is falling — an exit would fire if it were evaluated. -/
def c10b : Bar :=
  { tenkan := some 4, tenkan_prev := some 5, kijun := some 0, di_pos := some 0,
    di_neg := some 0, stoch_k := some 0, stoch_d := some 0, sma48 := some 0,
    buy_sig := some true, high := some 1000, low := some 1, close := some 100 }

/-- C10 witness: the entry bar produces only the BUY record and an open
position; no exit is evaluated despite the crash-low and falling tenkan. -/
theorem c10_witness :
    step defaultConfig c10s c10b =
      { cash := 0, units := 40000000/4004001, entry := some (2001/20), in_pos := true,
        hit := [],
        records := [{ side := Side.buy, price := 2001/20, qty := 40000000/4004001,
                      reason := Reason.entry }] } := by
  have h := c10_entry_short_circuit defaultConfig c10s c10b (2001/20) (40000000/4004001) 1000
    rfl rfl rfl (by norm_num [computeBuy, defaultConfig, c10s, c10b])
  rw [h]
  norm_num [c10s]

/-! ### Branch characterisations of `step`, shared by the invariant proofs -/

theorem step_nan (cfg : Config) (s : BState) (b : Bar) (h : b.hasNaN = true) :
    step cfg s b = s := by
  simp [step, h]

theorem step_flat_nosig (cfg : Config) (s : BState) (b : Bar)
    (hval : b.hasNaN = false) (hflat : s.in_pos = false)
    (hsig : b.buy_sig.getD false = false) :
    step cfg s b = s := by
  simp [step, hval, hflat, hsig]

theorem step_buy_skip (cfg : Config) (s : BState) (b : Bar)
    (hval : b.hasNaN = false) (hflat : s.in_pos = false)
    (hsig : b.buy_sig.getD false = true)
    (hcb : computeBuy cfg (b.close.getD 0) s.cash = none) :
    step cfg s b = s := by
  simp [step, hval, hflat, hsig, hcb]

theorem step_buy (cfg : Config) (s : BState) (b : Bar) (buy qty out : ℚ)
    (hval : b.hasNaN = false) (hflat : s.in_pos = false)
    (hsig : b.buy_sig.getD false = true)
    (hcb : computeBuy cfg (b.close.getD 0) s.cash = some (buy, qty, out)) :
    step cfg s b =
      { cash := s.cash - out, units := qty, entry := some buy, in_pos := true,
        hit := [],
        records := s.records ++
          [{ side := Side.buy, price := buy, qty := qty, reason := Reason.entry }] } := by
  simp [step, hval, hflat, hsig, hcb]

theorem step_stop (cfg : Config) (s : BState) (b : Bar)
    (hval : b.hasNaN = false) (hpos : s.in_pos = true)
    (hstop : b.low.getD 0 ≤ s.entry.getD 0 * (1 + cfg.stopLossPct / 100) ∧ 0 < s.units) :
    step cfg s b =
      { cash := s.cash
          + (s.entry.getD 0 * (1 + cfg.stopLossPct / 100) * (1 - cfg.slippage) * s.units
             - s.entry.getD 0 * (1 + cfg.stopLossPct / 100) * (1 - cfg.slippage) * s.units
               * cfg.feeRate),
        units := 0, entry := none, in_pos := false, hit := s.hit,
        records := s.records ++
          [{ side := Side.sell,
             price := s.entry.getD 0 * (1 + cfg.stopLossPct / 100) * (1 - cfg.slippage),
             qty := s.units, reason := Reason.stopLoss }] } := by
  simp [step, hval, hpos, hstop.1, hstop.2]

theorem step_ladder (cfg : Config) (s : BState) (b : Bar)
    (hval : b.hasNaN = false) (hpos : s.in_pos = true)
    (hnostop : ¬ (b.low.getD 0 ≤ s.entry.getD 0 * (1 + cfg.stopLossPct / 100)
                  ∧ 0 < s.units))
    (hnotrend : ¬ (cfg.exitOnTenkanSlope = true
        ∧ 0 < (runLadder cfg (s.entry.getD 0) (b.high.getD 0) (sortTrig cfg.triggers)
                 s.units s.cash s.hit s.records).1
        ∧ b.tenkan.getD 0 < b.tenkan_prev.getD 0)) :
    step cfg s b =
      { cash := (runLadder cfg (s.entry.getD 0) (b.high.getD 0) (sortTrig cfg.triggers)
                   s.units s.cash s.hit s.records).2.1,
        units := (runLadder cfg (s.entry.getD 0) (b.high.getD 0) (sortTrig cfg.triggers)
                   s.units s.cash s.hit s.records).1,
        entry := s.entry, in_pos := true,
        hit := (runLadder cfg (s.entry.getD 0) (b.high.getD 0) (sortTrig cfg.triggers)
                   s.units s.cash s.hit s.records).2.2.1,
        records := (runLadder cfg (s.entry.getD 0) (b.high.getD 0) (sortTrig cfg.triggers)
                   s.units s.cash s.hit s.records).2.2.2 } := by
  simp only [step, hval, Bool.false_eq_true, if_false, hpos, not_true_eq_false,
    false_and, if_neg hnostop, if_neg hnotrend, if_true]

theorem step_ladder_trend (cfg : Config) (s : BState) (b : Bar)
    (hval : b.hasNaN = false) (hpos : s.in_pos = true)
    (hnostop : ¬ (b.low.getD 0 ≤ s.entry.getD 0 * (1 + cfg.stopLossPct / 100)
                  ∧ 0 < s.units))
    (htrend : cfg.exitOnTenkanSlope = true
        ∧ 0 < (runLadder cfg (s.entry.getD 0) (b.high.getD 0) (sortTrig cfg.triggers)
                 s.units s.cash s.hit s.records).1
        ∧ b.tenkan.getD 0 < b.tenkan_prev.getD 0) :
    step cfg s b =
      { cash := (runLadder cfg (s.entry.getD 0) (b.high.getD 0) (sortTrig cfg.triggers)
                   s.units s.cash s.hit s.records).2.1
          + (b.close.getD 0 * (1 - cfg.slippage)
               * (runLadder cfg (s.entry.getD 0) (b.high.getD 0) (sortTrig cfg.triggers)
                    s.units s.cash s.hit s.records).1
             - b.close.getD 0 * (1 - cfg.slippage)
               * (runLadder cfg (s.entry.getD 0) (b.high.getD 0) (sortTrig cfg.triggers)
                    s.units s.cash s.hit s.records).1 * cfg.feeRate),
        units := 0, entry := none, in_pos := false,
        hit := (runLadder cfg (s.entry.getD 0) (b.high.getD 0) (sortTrig cfg.triggers)
                   s.units s.cash s.hit s.records).2.2.1,
        records := (runLadder cfg (s.entry.getD 0) (b.high.getD 0) (sortTrig cfg.triggers)
                   s.units s.cash s.hit s.records).2.2.2 ++
          [{ side := Side.sell, price := b.close.getD 0 * (1 - cfg.slippage),
             qty := (runLadder cfg (s.entry.getD 0) (b.high.getD 0) (sortTrig cfg.triggers)
                      s.units s.cash s.hit s.records).1,
             reason := Reason.trend }] } := by
  simp only [step, hval, Bool.false_eq_true, if_false, hpos, not_true_eq_false,
    false_and, if_neg hnostop, if_pos htrend, if_true]

/-! ### Quantity conservation (C2) -/

/-- Conservation invariant: total bought = total sold + remaining units, and a
flat state holds no units. -/
def Conserv (s : BState) : Prop :=
  buyQty s.records = sellQty s.records + s.units ∧ (s.in_pos = false → s.units = 0)

theorem conserv_init (c0 : ℚ) : Conserv (initState c0) := by
  simp [Conserv, initState, buyQty, sellQty]

theorem conserv_step (cfg : Config) (s : BState) (b : Bar) (h : Conserv s) :
    Conserv (step cfg s b) := by
  obtain ⟨h1, h2⟩ := h
  by_cases hval : b.hasNaN = true
  · rw [step_nan cfg s b hval]; exact ⟨h1, h2⟩
  · rw [Bool.not_eq_true] at hval
    by_cases hpos : s.in_pos = true
    · by_cases hstop : b.low.getD 0 ≤ s.entry.getD 0 * (1 + cfg.stopLossPct / 100)
          ∧ 0 < s.units
      · rw [step_stop cfg s b hval hpos hstop]
        refine ⟨?_, fun _ => rfl⟩
        simp only [buyQty_append, sellQty_append, buyQty_single_sell, sellQty_single_sell]
        linarith [h1]
      · have hΔsell : ∀ x ∈ ladderRecs cfg (s.entry.getD 0) (b.high.getD 0)
            (sortTrig cfg.triggers) s.units s.hit, x.side = Side.sell :=
          fun x hx => (ladderRecs_sell cfg (s.entry.getD 0) (b.high.getD 0)
            (sortTrig cfg.triggers) s.units s.hit x hx).1
        obtain ⟨hsq, hbq⟩ := sellQty_of_sells _ hΔsell
        by_cases htrend : cfg.exitOnTenkanSlope = true
            ∧ 0 < (runLadder cfg (s.entry.getD 0) (b.high.getD 0) (sortTrig cfg.triggers)
                     s.units s.cash s.hit s.records).1
            ∧ b.tenkan.getD 0 < b.tenkan_prev.getD 0
        · rw [step_ladder_trend cfg s b hval hpos hstop htrend]
          rw [runLadder_eq]
          refine ⟨?_, fun _ => rfl⟩
          simp only [buyQty_append, sellQty_append, hbq, hsq, buyQty_single_sell,
            sellQty_single_sell, runLadder_eq]
          linarith [h1]
        · rw [step_ladder cfg s b hval hpos hstop htrend]
          rw [runLadder_eq]
          refine ⟨?_, fun hff => by simp at hff⟩
          simp only [buyQty_append, sellQty_append, hbq, hsq]
          linarith [h1]
    · rw [Bool.not_eq_true] at hpos
      by_cases hsig : b.buy_sig.getD false = true
      · cases hcb : computeBuy cfg (b.close.getD 0) s.cash with
        | none => rw [step_buy_skip cfg s b hval hpos hsig hcb]; exact ⟨h1, h2⟩
        | some v =>
            obtain ⟨buy, qty, out⟩ := v
            rw [step_buy cfg s b buy qty out hval hpos hsig hcb]
            refine ⟨?_, fun hff => by simp at hff⟩
            simp only [buyQty_append, sellQty_append, buyQty_single_buy, sellQty_single_buy]
            have := h2 hpos
            linarith [h1]
      · rw [Bool.not_eq_true] at hsig
        rw [step_flat_nosig cfg s b hval hpos hsig]
        exact ⟨h1, h2⟩

theorem conserv_force (cfg : Config) (x : ℚ) (s : BState) (h : Conserv s) :
    Conserv (forceExit cfg x s) := by
  obtain ⟨h1, h2⟩ := h
  by_cases hpos : s.in_pos = true
  · simp only [forceExit, hpos, if_true]
    refine ⟨?_, fun _ => rfl⟩
    simp only [buyQty_append, sellQty_append, buyQty_single_sell, sellQty_single_sell]
    linarith [h1]
  · simp only [forceExit, hpos, if_false]
    exact ⟨h1, h2⟩

theorem pres_runBars (cfg : Config) (P : BState → Prop)
    (hstep : ∀ s b, P s → P (step cfg s b)) :
    ∀ (bars : List Bar) (s : BState), P s → P (runBars cfg s bars) := by
  intro bars
  induction bars with
  | nil => intro s h; exact h
  | cons b rest ih =>
      intro s h
      exact ih (step cfg s b) (hstep s b h)

theorem conserv_backtest (cfg : Config) (c0 : ℚ) (bars : List Bar) :
    Conserv (backtest cfg c0 bars) := by
  have hrun : Conserv (runBars cfg (initState c0) bars) :=
    pres_runBars cfg Conserv (conserv_step cfg) bars (initState c0) (conserv_init c0)
  unfold backtest
  cases hl : bars.getLast? with
  | none => exact hrun
  | some b => exact conserv_force cfg (b.close.getD 0) _ hrun

theorem backtest_flat (cfg : Config) (c0 : ℚ) (bars : List Bar) :
    (backtest cfg c0 bars).in_pos = false := by
  unfold backtest
  cases hl : bars.getLast? with
  | none =>
      have : bars = [] := List.getLast?_eq_none_iff.mp hl
      subst this
      rfl
  | some b =>
      unfold forceExit
      by_cases hpos : (runBars cfg (initState c0) bars).in_pos = true
      · simp [hpos]
      · rw [Bool.not_eq_true] at hpos
        simp [hpos]

/-- C2: quantity conservation.  After any prefix of the bar list the total
bought quantity equals the total sold quantity plus the remaining units, and a
flat state holds zero units; after the full backtest (forced exit included)
the remaining units are zero and bought = sold exactly. -/
theorem c2_quantity_conservation (cfg : Config) (c0 : ℚ) (bars p q : List Bar)
    (hsplit : bars = p ++ q) :
    (buyQty (runBars cfg (initState c0) p).records
        = sellQty (runBars cfg (initState c0) p).records
          + (runBars cfg (initState c0) p).units ∧
      ((runBars cfg (initState c0) p).in_pos = false →
        (runBars cfg (initState c0) p).units = 0)) ∧
    (buyQty (backtest cfg c0 bars).records
        = sellQty (backtest cfg c0 bars).records + (backtest cfg c0 bars).units ∧
      (backtest cfg c0 bars).units = 0) := by
  refine ⟨pres_runBars cfg Conserv (conserv_step cfg) p (initState c0) (conserv_init c0),
    (conserv_backtest cfg c0 bars).1, ?_⟩
  exact (conserv_backtest cfg c0 bars).2 (backtest_flat cfg c0 bars)

/-- Entry bar used to witness C2 (buy signal, close 100). -/
def c2b1 : Bar :=
  { tenkan := some 6, tenkan_prev := some 5, kijun := some 0, di_pos := some 0,
    di_neg := some 0, stoch_k := some 0, stoch_d := some 0, sma48 := some 0,
    buy_sig := some true, high := some 100, low := some 100, close := some 100 }

/-- Stop-loss bar used to witness C2 (low 90 under the threshold 99). -/
def c2b2 : Bar :=
  { tenkan := some 7, tenkan_prev := some 6, kijun := some 0, di_pos := some 0,
    di_neg := some 0, stoch_k := some 0, stoch_d := some 0, sma48 := some 0,
    buy_sig := some false, high := some 100, low := some 90, close := some 95 }

/-- C2 witness: a concrete entry-then-stop run conserves quantity, and the
finished backtest holds zero units. -/
theorem c2_witness :
    (buyQty (runBars defaultConfig (initState 100000) [c2b1]).records
        = sellQty (runBars defaultConfig (initState 100000) [c2b1]).records
          + (runBars defaultConfig (initState 100000) [c2b1]).units) ∧
    (backtest defaultConfig 100000 [c2b1, c2b2]).units = 0 :=
  ⟨(c2_quantity_conservation defaultConfig 100000 [c2b1, c2b2] [c2b1] [c2b2] rfl).1.1,
   (c2_quantity_conservation defaultConfig 100000 [c2b1, c2b2] [c2b1] [c2b2] rfl).2.2⟩

/-! ### At-most-once ladder triggers (C3) -/

/-- Folding step splitting a record list into per-position segments: a BUY
record closes the current segment and opens a new one. -/
def segAccum (acc : List (List Rec) × List Rec) (x : Rec) : List (List Rec) × List Rec :=
  if x.reason = Reason.entry then (acc.1 ++ [acc.2], [x]) else (acc.1, acc.2 ++ [x])

/-- The closed per-position segments of a record list, and the still-open
trailing segment. -/
def buySegs (l : List Rec) : List (List Rec) × List Rec := l.foldl segAccum ([], [])

theorem buySegs_append (l₁ l₂ : List Rec) :
    buySegs (l₁ ++ l₂) = l₂.foldl segAccum (buySegs l₁) := by
  simp [buySegs, List.foldl_append]

theorem foldl_segAccum_nonentry :
    ∀ (Δ : List Rec) (acc : List (List Rec) × List Rec),
      (∀ x ∈ Δ, x.reason ≠ Reason.entry) →
      Δ.foldl segAccum acc = (acc.1, acc.2 ++ Δ) := by
  intro Δ
  induction Δ with
  | nil => intro acc _; simp
  | cons x xs ih =>
      intro acc h
      have hx : x.reason ≠ Reason.entry := h x (List.mem_cons_self x xs)
      simp only [List.foldl_cons, segAccum, if_neg hx]
      rw [ih _ (fun y hy => h y (List.mem_cons_of_mem x hy))]
      simp

theorem buySegs_append_nonentry (l Δ : List Rec) (h : ∀ x ∈ Δ, x.reason ≠ Reason.entry) :
    buySegs (l ++ Δ) = ((buySegs l).1, (buySegs l).2 ++ Δ) := by
  rw [buySegs_append, foldl_segAccum_nonentry Δ _ h]

theorem buySegs_append_entry (l : List Rec) (x : Rec) (h : x.reason = Reason.entry) :
    buySegs (l ++ [x]) = ((buySegs l).1 ++ [(buySegs l).2], [x]) := by
  rw [buySegs_append]
  simp [segAccum, h]

/-- Segment invariant: every closed segment mentions each ladder threshold at
most once, so does the open segment, and while a position is open each
threshold already mentioned in the open segment is in the fired set. -/
def SegInv (s : BState) : Prop :=
  (∀ seg ∈ (buySegs s.records).1, (thrsOf seg).Nodup) ∧
  (thrsOf (buySegs s.records).2).Nodup ∧
  (s.in_pos = true → ∀ t ∈ thrsOf (buySegs s.records).2, t ∈ s.hit)

theorem seginv_init (c0 : ℚ) : SegInv (initState c0) := by
  refine ⟨?_, ?_, ?_⟩ <;> simp [initState, buySegs, thrsOf]

theorem thrsOf_single_nonladder (x : Rec) (h : thrOf x = none) : thrsOf [x] = [] := by
  simp [thrsOf, h]

theorem seginv_step (cfg : Config) (s : BState) (b : Bar) (h : SegInv s) :
    SegInv (step cfg s b) := by
  obtain ⟨h1, h2, h3⟩ := h
  by_cases hval : b.hasNaN = true
  · rw [step_nan cfg s b hval]; exact ⟨h1, h2, h3⟩
  · rw [Bool.not_eq_true] at hval
    by_cases hpos : s.in_pos = true
    · by_cases hstop : b.low.getD 0 ≤ s.entry.getD 0 * (1 + cfg.stopLossPct / 100)
          ∧ 0 < s.units
      · rw [step_stop cfg s b hval hpos hstop]
        simp only [SegInv]
        rw [buySegs_append_nonentry _ _ (by intro x hx; simp at hx; subst hx; simp)]
        refine ⟨h1, ?_, fun hff => by simp at hff⟩
        simpa [thrsOf_append, thrsOf, thrOf] using h2
      · -- ladder branch; the appended ladder records have fresh, distinct thresholds
        have hnodupΔ := ladderRecs_thrs_nodup cfg (s.entry.getD 0) (b.high.getD 0)
          (sortTrig cfg.triggers) s.units s.hit
        have hfreshΔ := ladderRecs_thrs_fresh cfg (s.entry.getD 0) (b.high.getD 0)
          (sortTrig cfg.triggers) s.units s.hit
        have hΔreason : ∀ x ∈ ladderRecs cfg (s.entry.getD 0) (b.high.getD 0)
            (sortTrig cfg.triggers) s.units s.hit, x.reason ≠ Reason.entry := by
          intro x hx
          obtain ⟨-, t, ht, -⟩ := ladderRecs_sell cfg (s.entry.getD 0) (b.high.getD 0)
            (sortTrig cfg.triggers) s.units s.hit x hx
          rw [ht]
          intro hcon
          cases hcon
        have hdisj : (thrsOf (buySegs s.records).2).Disjoint
            (thrsOf (ladderRecs cfg (s.entry.getD 0) (b.high.getD 0)
              (sortTrig cfg.triggers) s.units s.hit)) := by
          intro t ht1 ht2
          exact hfreshΔ t ht2 (h3 hpos t ht1)
        have hnodup2 : (thrsOf ((buySegs s.records).2 ++
            ladderRecs cfg (s.entry.getD 0) (b.high.getD 0)
              (sortTrig cfg.triggers) s.units s.hit)).Nodup := by
          rw [thrsOf_append]
          exact List.Nodup.append h2 hnodupΔ hdisj
        by_cases htrend : cfg.exitOnTenkanSlope = true
            ∧ 0 < (runLadder cfg (s.entry.getD 0) (b.high.getD 0) (sortTrig cfg.triggers)
                     s.units s.cash s.hit s.records).1
            ∧ b.tenkan.getD 0 < b.tenkan_prev.getD 0
        · rw [step_ladder_trend cfg s b hval hpos hstop htrend]
          rw [runLadder_eq]
          simp only [SegInv]
          rw [List.append_assoc, buySegs_append_nonentry _ _ (by
            intro x hx
            rcases List.mem_append.mp hx with hxl | hxr
            · exact hΔreason x hxl
            · simp at hxr
              subst hxr
              simp)]
          refine ⟨h1, ?_, fun hff => by simp at hff⟩
          rw [← List.append_assoc, thrsOf_append]
          rw [thrsOf_append] at hnodup2
          simpa [thrsOf, thrOf] using hnodup2
        · rw [step_ladder cfg s b hval hpos hstop htrend]
          rw [runLadder_eq]
          simp only [SegInv]
          rw [buySegs_append_nonentry _ _ hΔreason]
          refine ⟨h1, hnodup2, fun _ t ht => ?_⟩
          rw [thrsOf_append] at ht
          rcases List.mem_append.mp ht with ht1 | ht2
          · exact List.mem_append_right _ (h3 hpos t ht1)
          · exact List.mem_append_left _ (List.mem_reverse.mpr ht2)
    · rw [Bool.not_eq_true] at hpos
      by_cases hsig : b.buy_sig.getD false = true
      · cases hcb : computeBuy cfg (b.close.getD 0) s.cash with
        | none => rw [step_buy_skip cfg s b hval hpos hsig hcb]; exact ⟨h1, h2, h3⟩
        | some v =>
            obtain ⟨buy, qty, out⟩ := v
            rw [step_buy cfg s b buy qty out hval hpos hsig hcb]
            simp only [SegInv]
            rw [buySegs_append_entry _ _ rfl]
            refine ⟨?_, by simp [thrsOf, thrOf], by intro _ t ht; simp [thrsOf, thrOf] at ht⟩
            intro seg hseg
            rcases List.mem_append.mp hseg with hl | hr
            · exact h1 seg hl
            · simp at hr; subst hr; exact h2
      · rw [Bool.not_eq_true] at hsig
        rw [step_flat_nosig cfg s b hval hpos hsig]
        exact ⟨h1, h2, h3⟩

theorem seginv_force (cfg : Config) (x : ℚ) (s : BState) (h : SegInv s) :
    SegInv (forceExit cfg x s) := by
  obtain ⟨h1, h2, h3⟩ := h
  by_cases hpos : s.in_pos = true
  · simp only [forceExit, hpos, if_true, SegInv]
    rw [buySegs_append_nonentry _ _ (by intro x hx; simp at hx; subst hx; simp)]
    refine ⟨h1, ?_, fun hff => by simp at hff⟩
    simpa [thrsOf_append, thrsOf, thrOf] using h2
  · simp only [forceExit, hpos, if_false]
    exact ⟨h1, h2, h3⟩

/-- C3: at-most-once triggers.  In the record log of any run prefix — and of
the finished backtest — every per-position segment mentions each ladder
threshold at most once, and any step that opens a position (flat → open)
starts with an empty fired-trigger set. -/
theorem c3_trigger_at_most_once (cfg : Config) (c0 : ℚ) (bars p q : List Bar)
    (hsplit : bars = p ++ q) :
    ((∀ seg ∈ (buySegs (runBars cfg (initState c0) p).records).1, (thrsOf seg).Nodup) ∧
     (thrsOf (buySegs (runBars cfg (initState c0) p).records).2).Nodup) ∧
    ((∀ seg ∈ (buySegs (backtest cfg c0 bars).records).1, (thrsOf seg).Nodup) ∧
     (thrsOf (buySegs (backtest cfg c0 bars).records).2).Nodup) ∧
    (∀ (s : BState) (b : Bar), s.in_pos = false → (step cfg s b).in_pos = true →
      (step cfg s b).hit = []) := by
  have hrun : SegInv (runBars cfg (initState c0) p) :=
    pres_runBars cfg SegInv (seginv_step cfg) p (initState c0) (seginv_init c0)
  have hfull : SegInv (backtest cfg c0 bars) := by
    have h := pres_runBars cfg SegInv (seginv_step cfg) bars (initState c0) (seginv_init c0)
    unfold backtest
    cases bars.getLast? with
    | none => exact h
    | some b => exact seginv_force cfg (b.close.getD 0) _ h
  refine ⟨⟨hrun.1, hrun.2.1⟩, ⟨hfull.1, hfull.2.1⟩, ?_⟩
  intro s b hflat hopen
  by_cases hval : b.hasNaN = true
  · rw [step_nan cfg s b hval, hflat] at hopen
    exact Bool.noConfusion hopen
  · rw [Bool.not_eq_true] at hval
    by_cases hsig : b.buy_sig.getD false = true
    · cases hcb : computeBuy cfg (b.close.getD 0) s.cash with
      | none =>
          rw [step_buy_skip cfg s b hval hflat hsig hcb, hflat] at hopen
          exact Bool.noConfusion hopen
      | some v =>
          obtain ⟨buy, qty, out⟩ := v
          rw [step_buy cfg s b buy qty out hval hflat hsig hcb]
    · rw [Bool.not_eq_true] at hsig
      rw [step_flat_nosig cfg s b hval hflat hsig, hflat] at hopen
      exact Bool.noConfusion hopen

/-- Entry bar used to witness C3. -/
def c3b1 : Bar :=
  { tenkan := some 6, tenkan_prev := some 5, kijun := some 0, di_pos := some 0,
    di_neg := some 0, stoch_k := some 0, stoch_d := some 0, sma48 := some 0,
    buy_sig := some true, high := some 100, low := some 100, close := some 100 }

/-- Ladder bar used to witness C3 (high 101.2 fires the 0.5% and 1.0% rungs
from the entry fill 100.05). -/
def c3b2 : Bar :=
  { tenkan := some 7, tenkan_prev := some 6, kijun := some 0, di_pos := some 0,
    di_neg := some 0, stoch_k := some 0, stoch_d := some 0, sma48 := some 0,
    buy_sig := some false, high := some (506/5), low := some 100, close := some 101 }

/-- Flat state used to witness the C3 reset conjunct. -/
def c3s : BState :=
  { cash := 1000, units := 0, entry := none, in_pos := false, hit := [3/2], records := [] }

/-- Entry bar used to witness the C3 reset conjunct. -/
def c3b : Bar :=
  { tenkan := some 6, tenkan_prev := some 5, kijun := some 0, di_pos := some 0,
    di_neg := some 0, stoch_k := some 0, stoch_d := some 0, sma48 := some 0,
    buy_sig := some true, high := some 100, low := some 100, close := some 100 }

/-- C3 witness: on a concrete entry-then-ladder run the open segment's fired
thresholds are distinct, and a concrete flat → open step resets the stale
fired set `[3/2]` to the empty set. -/
theorem c3_witness :
    (thrsOf (buySegs (runBars defaultConfig (initState 100000) [c3b1, c3b2]).records).2).Nodup ∧
    (step defaultConfig c3s c3b).hit = [] := by
  refine ⟨(c3_trigger_at_most_once defaultConfig 100000 [c3b1, c3b2] [c3b1, c3b2] []
      (by simp)).1.2, ?_⟩
  refine (c3_trigger_at_most_once defaultConfig 100000 [] [] [] rfl).2.2 c3s c3b rfl ?_
  norm_num [step, computeBuy, defaultConfig, c3s, c3b, Bar.hasNaN]

/-! ### Cash non-negativity (C9) -/

/-- Sign conditions on the configuration, satisfied by the source constants:
rates in [0, 1], fraction in [0, 1], thresholds ≥ −100%. -/
def CfgOK (cfg : Config) : Prop :=
  0 ≤ cfg.feeRate ∧ cfg.feeRate ≤ 1 ∧ 0 ≤ cfg.slippage ∧ cfg.slippage ≤ 1 ∧
  0 ≤ cfg.fraction ∧ cfg.fraction ≤ 1 ∧ (∀ t ∈ cfg.triggers, -100 ≤ t) ∧
  -100 ≤ cfg.stopLossPct

/-- Sign invariant on the loop state. -/
def NonnegInv (s : BState) : Prop :=
  0 ≤ s.cash ∧ 0 ≤ s.units ∧ 0 ≤ s.entry.getD 0

theorem netSum_nonneg (cfg : Config) (l : List Rec) (hfee : cfg.feeRate ≤ 1)
    (h : ∀ x ∈ l, 0 ≤ x.price ∧ 0 ≤ x.qty) : 0 ≤ netSum cfg l := by
  unfold netSum
  apply List.sum_nonneg
  intro a ha
  obtain ⟨x, hx, rfl⟩ := List.mem_map.mp ha
  obtain ⟨hp, hq⟩ := h x hx
  have h1 : (0:ℚ) ≤ 1 - cfg.feeRate := by linarith
  exact mul_nonneg (mul_nonneg hp hq) h1

theorem nonneg_step (cfg : Config) (hcfg : CfgOK cfg) (s : BState) (b : Bar)
    (hbar : 0 ≤ b.close.getD 0) (h : NonnegInv s) : NonnegInv (step cfg s b) := by
  obtain ⟨hfee0, hfee1, hsl0, hsl1, hfr0, hfr1, htr, hstp⟩ := hcfg
  obtain ⟨hc, hu, he⟩ := h
  by_cases hval : b.hasNaN = true
  · rw [step_nan cfg s b hval]; exact ⟨hc, hu, he⟩
  · rw [Bool.not_eq_true] at hval
    by_cases hpos : s.in_pos = true
    · by_cases hstop : b.low.getD 0 ≤ s.entry.getD 0 * (1 + cfg.stopLossPct / 100)
          ∧ 0 < s.units
      · rw [step_stop cfg s b hval hpos hstop]
        refine ⟨?_, le_refl 0, by simp⟩
        have h1 : (0:ℚ) ≤ 1 + cfg.stopLossPct / 100 := by linarith
        have h2 : (0:ℚ) ≤ 1 - cfg.slippage := by linarith
        have hA : 0 ≤ s.entry.getD 0 * (1 + cfg.stopLossPct / 100) * (1 - cfg.slippage)
            * s.units := mul_nonneg (mul_nonneg (mul_nonneg he h1) h2) hu
        nlinarith [hA]
      · have hnn := ladderRecs_nonneg cfg (s.entry.getD 0) (b.high.getD 0) hfr0 hfr1
          (sortTrig cfg.triggers) s.units s.hit hu
        have hpq : ∀ x ∈ ladderRecs cfg (s.entry.getD 0) (b.high.getD 0)
            (sortTrig cfg.triggers) s.units s.hit, 0 ≤ x.price ∧ 0 ≤ x.qty := by
          intro x hx
          obtain ⟨-, t, -, htmem, hp⟩ := ladderRecs_sell cfg (s.entry.getD 0) (b.high.getD 0)
            (sortTrig cfg.triggers) s.units s.hit x hx
          refine ⟨?_, hnn.2 x hx⟩
          rw [hp]
          have ht1 : t ∈ cfg.triggers := (mem_sortTrig t cfg.triggers).mp htmem
          have ht2 := htr t ht1
          have ht3 : (0:ℚ) ≤ 1 + t / 100 := by linarith
          exact mul_nonneg he ht3
        have hnet : 0 ≤ netSum cfg (ladderRecs cfg (s.entry.getD 0) (b.high.getD 0)
            (sortTrig cfg.triggers) s.units s.hit) := netSum_nonneg cfg _ hfee1 hpq
        by_cases htrend : cfg.exitOnTenkanSlope = true
            ∧ 0 < (runLadder cfg (s.entry.getD 0) (b.high.getD 0) (sortTrig cfg.triggers)
                     s.units s.cash s.hit s.records).1
            ∧ b.tenkan.getD 0 < b.tenkan_prev.getD 0
        · rw [step_ladder_trend cfg s b hval hpos hstop htrend]
          rw [runLadder_eq]
          refine ⟨?_, le_refl 0, by simp⟩
          dsimp only
          have h2 : (0:ℚ) ≤ 1 - cfg.slippage := by linarith
          have hB : 0 ≤ b.close.getD 0 * (1 - cfg.slippage)
              * (s.units - qtySum (ladderRecs cfg (s.entry.getD 0) (b.high.getD 0)
                  (sortTrig cfg.triggers) s.units s.hit)) :=
            mul_nonneg (mul_nonneg hbar h2) hnn.1
          nlinarith [hB]
        · rw [step_ladder cfg s b hval hpos hstop htrend]
          rw [runLadder_eq]
          refine ⟨?_, ?_, he⟩
          · dsimp only
            linarith [hnet]
          · dsimp only
            exact hnn.1
    · rw [Bool.not_eq_true] at hpos
      by_cases hsig : b.buy_sig.getD false = true
      · cases hcb : computeBuy cfg (b.close.getD 0) s.cash with
        | none => rw [step_buy_skip cfg s b hval hpos hsig hcb]; exact ⟨hc, hu, he⟩
        | some v =>
            obtain ⟨buy, qty, out⟩ := v
            rw [step_buy cfg s b buy qty out hval hpos hsig hcb]
            obtain ⟨hbe, hbud, hout, hle, hres, hsgn⟩ :=
              computeBuy_spec cfg (b.close.getD 0) s.cash buy qty out hcb
            obtain ⟨hbuy0, hqty0⟩ := hsgn hbar hsl0
            refine ⟨?_, hqty0, by simpa using hbuy0⟩
            show (0:ℚ) ≤ s.cash - out
            linarith
      · rw [Bool.not_eq_true] at hsig
        rw [step_flat_nosig cfg s b hval hpos hsig]
        exact ⟨hc, hu, he⟩

theorem nonneg_runBars (cfg : Config) (hcfg : CfgOK cfg) :
    ∀ (bars : List Bar) (s : BState), (∀ b ∈ bars, 0 ≤ b.close.getD 0) →
      NonnegInv s → NonnegInv (runBars cfg s bars) := by
  intro bars
  induction bars with
  | nil => intro s _ h; exact h
  | cons b rest ih =>
      intro s hb h
      exact ih (step cfg s b) (fun x hx => hb x (List.mem_cons_of_mem b hx))
        (nonneg_step cfg hcfg s b (hb b (List.mem_cons_self b rest)) h)

theorem nonneg_force (cfg : Config) (hcfg : CfgOK cfg) (x : ℚ) (hx : 0 ≤ x)
    (s : BState) (h : NonnegInv s) : NonnegInv (forceExit cfg x s) := by
  obtain ⟨hfee0, hfee1, hsl0, hsl1, -, -, -, -⟩ := hcfg
  obtain ⟨hc, hu, he⟩ := h
  by_cases hpos : s.in_pos = true
  · simp only [forceExit, hpos, if_true]
    refine ⟨?_, le_refl 0, by simp⟩
    have h2 : (0:ℚ) ≤ 1 - cfg.slippage := by linarith
    have hB : 0 ≤ x * (1 - cfg.slippage) * s.units :=
      mul_nonneg (mul_nonneg hx h2) hu
    show (0:ℚ) ≤ s.cash + (x * (1 - cfg.slippage) * s.units
      - x * (1 - cfg.slippage) * s.units * cfg.feeRate)
    nlinarith [hB]
  · simp only [forceExit, hpos, if_false]
    exact ⟨hc, hu, he⟩

/-- C9: starting from a non-negative cash balance, cash stays non-negative
after every step of the loop and after the final forced exit, for the sign
conditions the source constants satisfy and bars with non-negative closes:
entries never debit more than the available cash (the quantity is re-solved
so the outlay equals cash when the naive outlay would exceed it, and
non-positive budgets or quantities are skipped), and every exit credits a
non-negative amount. -/
theorem c9_cash_nonneg (cfg : Config) (c0 : ℚ) (bars p q : List Bar)
    (hc0 : 0 ≤ c0) (hsplit : bars = p ++ q) (hcfg : CfgOK cfg)
    (hbars : ∀ b ∈ bars, 0 ≤ b.close.getD 0) :
    0 ≤ (runBars cfg (initState c0) p).cash ∧ 0 ≤ (backtest cfg c0 bars).cash := by
  have hinit : NonnegInv (initState c0) := ⟨hc0, le_refl 0, by simp [initState]⟩
  have hp : ∀ b ∈ p, 0 ≤ b.close.getD 0 := fun b hb =>
    hbars b (hsplit ▸ List.mem_append_left q hb)
  have h1 := nonneg_runBars cfg hcfg p (initState c0) hp hinit
  have h2 := nonneg_runBars cfg hcfg bars (initState c0) hbars hinit
  refine ⟨h1.1, ?_⟩
  unfold backtest
  cases hl : bars.getLast? with
  | none => exact h2.1
  | some b =>
      have hb : b ∈ bars := List.mem_of_mem_getLast? hl
      exact (nonneg_force cfg hcfg (b.close.getD 0) (hbars b hb) _ h2).1

/-- Entry bar used to witness C9. -/
def c9b1 : Bar :=
  { tenkan := some 6, tenkan_prev := some 5, kijun := some 0, di_pos := some 0,
    di_neg := some 0, stoch_k := some 0, stoch_d := some 0, sma48 := some 0,
    buy_sig := some true, high := some 100, low := some 100, close := some 100 }

/-- Trend-exit bar used to witness C9 (tenkan turns down). -/
def c9b2 : Bar :=
  { tenkan := some 5, tenkan_prev := some 6, kijun := some 0, di_pos := some 0,
    di_neg := some 0, stoch_k := some 0, stoch_d := some 0, sma48 := some 0,
    buy_sig := some false, high := some 101, low := some 100, close := some 100 }

/-- C9 witness: on a concrete entry-then-trend-exit run with the source
constants, cash stays non-negative throughout and at the end. -/
theorem c9_witness :
    0 ≤ (runBars defaultConfig (initState 100000) [c9b1]).cash ∧
    0 ≤ (backtest defaultConfig 100000 [c9b1, c9b2]).cash :=
  c9_cash_nonneg defaultConfig 100000 [c9b1, c9b2] [c9b1] [c9b2] (by norm_num) rfl
    (by
      refine ⟨by norm_num [defaultConfig], by norm_num [defaultConfig],
        by norm_num [defaultConfig], by norm_num [defaultConfig],
        by norm_num [defaultConfig], by norm_num [defaultConfig], ?_,
        by norm_num [defaultConfig]⟩
      intro t ht
      simp only [defaultConfig, List.mem_cons, List.not_mem_nil, or_false] at ht
      rcases ht with h | h | h | h <;> rw [h] <;> norm_num)
    (by
      intro b hb
      simp only [List.mem_cons, List.not_mem_nil, or_false] at hb
      rcases hb with h | h
      · rw [h]; norm_num [c9b1]
      · rw [h]; norm_num [c9b2])

/-! ### The three-rung ladder example (C6) -/

/-- The three-rung ladder of the worked example: [0.5%, 1.0%, 1.5%] at 25%
each (the source constants carry a fourth rung at 2.0%). -/
def c6cfg : Config := { defaultConfig with triggers := [1/2, 1, 3/2] }

/-- A position of 1 unit entered at price 100. -/
def c6s : BState :=
  { cash := 0, units := 1, entry := some 100, in_pos := true, hit := [], records := [] }

/-- A bar whose high 101.6 crosses all three rungs; its low 100 stays above
the stop threshold 99 and its tenkan rises, so no other exit interferes. -/
def c6b : Bar :=
  { tenkan := some 1, tenkan_prev := some 0, kijun := some 0, di_pos := some 0,
    di_neg := some 0, stoch_k := some 0, stoch_d := some 0, sma48 := some 0,
    buy_sig := some false, high := some (508/5), low := some 100, close := some 100 }

/-- C6 counterexample: on the example input all three rungs fire in one tick,
but the remaining quantity is 27/64 of the original — each rung sells 25% of
the *current* remaining quantity — and not the 25% the example claims. -/
theorem c6_counterexample :
    (step c6cfg c6s c6b).hit = [3/2, 1, 1/2] ∧
    (step c6cfg c6s c6b).units ≠ c6s.units * (1/4) := by
  constructor
  · norm_num [step, c6cfg, c6s, c6b, defaultConfig, Bar.hasNaN, sortTrig, insertAsc, runLadder]
  · norm_num [step, c6cfg, c6s, c6b, defaultConfig, Bar.hasNaN, sortTrig, insertAsc, runLadder]

/-- C6 amended: the bar with high 101.6 fires all three rungs in one tick —
selling 1/4, then 3/16, then 9/64 at the three target prices — and leaves
(3/4)³ = 27/64 ≈ 42.19% of the originally acquired quantity open. -/
theorem c6_amended :
    (step c6cfg c6s c6b).units = c6s.units * (27/64) ∧
    (step c6cfg c6s c6b).hit = [3/2, 1, 1/2] ∧
    (step c6cfg c6s c6b).in_pos = true ∧
    (step c6cfg c6s c6b).records =
      [{ side := Side.sell, price := 201/2, qty := 1/4, reason := Reason.ladderExit (1/2) },
       { side := Side.sell, price := 101, qty := 3/16, reason := Reason.ladderExit 1 },
       { side := Side.sell, price := 203/2, qty := 9/64, reason := Reason.ladderExit (3/2) }] := by
  refine ⟨?_, ?_, ?_, ?_⟩ <;>
    norm_num [step, c6cfg, c6s, c6b, defaultConfig, Bar.hasNaN, sortTrig, insertAsc, runLadder]

end Backtest

namespace Gainer

/-- One candidate value of the `candidates` dict of `src/gainer.py`
(line 234): `{"rank": r, "round": R}`.  Markets are natural-number ids. -/
structure CandInfo where
  rank : ℕ
  round : ℕ
deriving DecidableEq

/-- The loop state the candidate logic reads and writes: the previous round's
top-N markets (`prev_top_list` / `prev_top_set`) and the candidate map kept
as an insertion-ordered association list, as a Python dict is. -/
structure GState where
  prevTop : List ℕ
  candidates : List (ℕ × CandInfo)
deriving DecidableEq

/-- Association-list lookup (Python `candidates[m]` / `m in candidates`). -/
def lookupC : List (ℕ × CandInfo) → ℕ → Option CandInfo
  | [], _ => none
  | p :: ps, m => if p.1 = m then some p.2 else lookupC ps m

/-- `curr_ranks[m]`: 1-based rank of a market in the rank-ordered top list. -/
def rankNat (top : List ℕ) (m : ℕ) : ℕ := top.findIdx (fun x => x == m) + 1

/-- `curr_ranks` membership lookup (`if m in curr_ranks`). -/
def rankOf (top : List ℕ) (m : ℕ) : Option ℕ :=
  if m ∈ top then some (rankNat top m) else none

/-- Python dict update `candidates[m] = v`: replace in place when the key
exists, append otherwise. -/
def upsert (cs : List (ℕ × CandInfo)) (m : ℕ) (v : CandInfo) : List (ℕ × CandInfo) :=
  if cs.any (fun p => p.1 == m) then
    cs.map (fun p => if p.1 == m then (m, v) else p)
  else cs ++ [(m, v)]

/-- Result of one executed round body: the new state and the list of
candidates that were evaluated this round (market, rank-improved signal). -/
structure RoundOut where
  state : GState
  evals : List (ℕ × Bool)
deriving DecidableEq

/-- One executed iteration of the candidate logic of `run_loop`
(`src/gainer.py` lines 221-265 and 286-289), for loop counter `round` and the
round's observed top list `top` (markets in rank order): markets newly in the
top versus the previous round are registered with the current round number
(skipped on the very first round, when `prev_top_set` is empty); every
candidate born exactly one round earlier is evaluated — the buy signal is
true exactly when the market is still ranked and its rank improved — and
deleted regardless of the outcome; every candidate older than one round is
deleted unevaluated; finally the top list is saved for the next round. -/
def roundStep (st : GState) (round : ℕ) (top : List ℕ) : RoundOut :=
  let newEntries :=
    if st.prevTop = [] then [] else top.filter (fun m => decide (m ∉ st.prevTop))
  let cs1 := newEntries.foldl (fun cs m => upsert cs m ⟨rankNat top m, round⟩) st.candidates
  let evals := (cs1.filter (fun p => round == p.2.round + 1)).map (fun p =>
    (p.1, match rankOf top p.1 with
          | some nr => decide (nr < p.2.rank)
          | none => false))
  let cs2 := cs1.filter (fun p => !(round == p.2.round + 1 || decide (p.2.round + 1 < round)))
  { state := { prevTop := top, candidates := cs2 }, evals := evals }

theorem lookupC_eq_none (cs : List (ℕ × CandInfo)) (m : ℕ)
    (h : ∀ p ∈ cs, p.1 ≠ m) : lookupC cs m = none := by
  induction cs with
  | nil => rfl
  | cons p ps ih =>
      simp only [lookupC, if_neg (h p (List.mem_cons_self p ps))]
      exact ih fun q hq => h q (List.mem_cons_of_mem p hq)

theorem lookupC_mem (cs : List (ℕ × CandInfo)) (m : ℕ) (v : CandInfo)
    (h : lookupC cs m = some v) : (m, v) ∈ cs := by
  induction cs with
  | nil => cases h
  | cons p ps ih =>
      by_cases hp : p.1 = m
      · simp only [lookupC, if_pos hp, Option.some.injEq] at h
        subst h
        subst hp
        exact List.mem_cons_self _ _
      · simp only [lookupC, if_neg hp] at h
        exact List.mem_cons_of_mem p (ih h)

theorem nodupKeys_unique (cs : List (ℕ × CandInfo)) (m : ℕ) (v : CandInfo)
    (hn : (cs.map Prod.fst).Nodup) (hv : (m, v) ∈ cs) :
    ∀ p ∈ cs, p.1 = m → p = (m, v) := by
  induction cs with
  | nil => intro p hp; cases hp
  | cons q qs ih =>
      simp only [List.map_cons, List.nodup_cons] at hn
      intro p hp hpm
      rcases List.mem_cons.mp hv with hv1 | hv2
      · rcases List.mem_cons.mp hp with hp1 | hp2
        · rw [hp1, hv1]
        · exfalso
          apply hn.1
          rw [← hv1]
          simp only [← hpm]
          exact List.mem_map_of_mem Prod.fst hp2
      · rcases List.mem_cons.mp hp with hp1 | hp2
        · exfalso
          apply hn.1
          rw [hp1] at hpm
          rw [hpm]
          exact List.mem_map_of_mem Prod.fst hv2
        · exact ih hn.2 hv2 p hp2 hpm

theorem upsert_keys_nodup (cs : List (ℕ × CandInfo)) (m : ℕ) (v : CandInfo)
    (hn : (cs.map Prod.fst).Nodup) : ((upsert cs m v).map Prod.fst).Nodup := by
  unfold upsert
  by_cases hmem : cs.any (fun p => p.1 == m) = true
  · rw [if_pos hmem]
    have : (cs.map (fun p => if p.1 == m then (m, v) else p)).map Prod.fst
        = cs.map Prod.fst := by
      rw [List.map_map]
      apply List.map_congr_left
      intro p _
      by_cases hp : p.1 = m
      · simp [hp]
      · simp [hp]
    rw [this]
    exact hn
  · rw [if_neg hmem]
    rw [List.map_append]
    simp only [List.map_cons, List.map_nil]
    rw [List.nodup_append]
    refine ⟨hn, List.nodup_singleton m, ?_⟩
    intro a ha hb
    simp only [List.mem_singleton] at hb
    subst hb
    obtain ⟨p, hp, hpa⟩ := List.mem_map.mp ha
    rw [List.any_eq_true] at hmem
    push_neg at hmem
    exact absurd (by simpa using hpa) (by simpa using hmem p hp)

theorem lookup_map_upd (k m : ℕ) (v : CandInfo) (h : k ≠ m) :
    ∀ ps : List (ℕ × CandInfo),
      lookupC (ps.map (fun p => if p.1 == k then (k, v) else p)) m = lookupC ps m := by
  intro ps
  induction ps with
  | nil => rfl
  | cons p ps ih =>
      simp only [List.map_cons]
      by_cases hp : p.1 = k
      · have hp2 : (p.1 == k) = true := by simpa using hp
        simp only [hp2, if_true, lookupC]
        rw [if_neg h, if_neg (by rw [hp]; exact h), ih]
      · have hp2 : (p.1 == k) = false := by simpa using hp
        simp only [hp2, Bool.false_eq_true, if_false, lookupC]
        by_cases hpm : p.1 = m
        · rw [if_pos hpm, if_pos hpm]
        · rw [if_neg hpm, if_neg hpm, ih]

theorem lookup_append_single (k m : ℕ) (v : CandInfo) (h : k ≠ m) :
    ∀ ps : List (ℕ × CandInfo), lookupC (ps ++ [(k, v)]) m = lookupC ps m := by
  intro ps
  induction ps with
  | nil => simp [lookupC, if_neg h]
  | cons p ps ih =>
      simp only [List.cons_append, lookupC]
      by_cases hpm : p.1 = m
      · rw [if_pos hpm, if_pos hpm]
      · rw [if_neg hpm, if_neg hpm]
        exact ih

theorem upsert_lookup_ne (cs : List (ℕ × CandInfo)) (k m : ℕ) (v : CandInfo)
    (h : k ≠ m) : lookupC (upsert cs k v) m = lookupC cs m := by
  unfold upsert
  by_cases hmem : cs.any (fun p => p.1 == k) = true
  · rw [if_pos hmem]
    exact lookup_map_upd k m v h cs
  · rw [if_neg hmem]
    exact lookup_append_single k m v h cs

theorem foldl_upsert_lookup (f : ℕ → CandInfo) (m : ℕ) :
    ∀ (ms : List ℕ) (cs : List (ℕ × CandInfo)), (∀ k ∈ ms, k ≠ m) →
      lookupC (ms.foldl (fun cs k => upsert cs k (f k)) cs) m = lookupC cs m := by
  intro ms
  induction ms with
  | nil => intro cs _; rfl
  | cons k ks ih =>
      intro cs h
      simp only [List.foldl_cons]
      rw [ih (upsert cs k (f k)) (fun a ha => h a (List.mem_cons_of_mem k ha))]
      exact upsert_lookup_ne cs k m (f k) (h k (List.mem_cons_self k ks))

theorem foldl_upsert_keys_nodup (f : ℕ → CandInfo) :
    ∀ (ms : List ℕ) (cs : List (ℕ × CandInfo)), (cs.map Prod.fst).Nodup →
      (((ms.foldl (fun cs k => upsert cs k (f k)) cs)).map Prod.fst).Nodup := by
  intro ms
  induction ms with
  | nil => intro cs h; exact h
  | cons k ks ih =>
      intro cs h
      exact ih (upsert cs k (f k)) (upsert_keys_nodup cs k (f k) h)

/-- C7: one-shot candidate expiry.  For a candidate map with distinct keys
holding `(m, baselineRank r, bornRound R)` where `m` was in the previous
round's top list (as every registered candidate was), and for any next
executed round with counter `round > R`: the candidate is evaluated in that
round if and only if `round = R + 1`, and it is removed from the candidate
map in that round no matter what — at `R + 1` regardless of the evaluation's
outcome, and later than `R + 1` without ever being evaluated. -/
theorem c7_candidate_expiry (st : GState) (round m r R : ℕ) (top : List ℕ)
    (hkeys : (st.candidates.map Prod.fst).Nodup)
    (hc : lookupC st.candidates m = some ⟨r, R⟩)
    (hm : m ∈ st.prevTop)
    (hR : R < round) :
    ((m ∈ (roundStep st round top).evals.map Prod.fst) ↔ round = R + 1) ∧
    lookupC (roundStep st round top).state.candidates m = none := by
  have hne : st.prevTop ≠ [] := fun h0 => by rw [h0] at hm; cases hm
  have hnek : ∀ k ∈ top.filter (fun k => decide (k ∉ st.prevTop)), k ≠ m := by
    intro k hk hkm
    have h2 := (List.mem_filter.mp hk).2
    subst hkm
    simp only [decide_eq_true_eq] at h2
    exact h2 hm
  have hlook1 : lookupC (List.foldl (fun cs k => upsert cs k ⟨rankNat top k, round⟩)
      st.candidates (top.filter (fun k => decide (k ∉ st.prevTop)))) m = some ⟨r, R⟩ := by
    have h := foldl_upsert_lookup (fun k => ⟨rankNat top k, round⟩) m
      (top.filter (fun k => decide (k ∉ st.prevTop))) st.candidates hnek
    exact h.trans hc
  have hkeys1 : ((List.foldl (fun cs k => upsert cs k ⟨rankNat top k, round⟩)
      st.candidates (top.filter (fun k => decide (k ∉ st.prevTop)))).map Prod.fst).Nodup :=
    foldl_upsert_keys_nodup (fun k => ⟨rankNat top k, round⟩)
      (top.filter (fun k => decide (k ∉ st.prevTop))) st.candidates hkeys
  have hmem1 : (m, (⟨r, R⟩ : CandInfo)) ∈ List.foldl
      (fun cs k => upsert cs k ⟨rankNat top k, round⟩)
      st.candidates (top.filter (fun k => decide (k ∉ st.prevTop))) :=
    lookupC_mem _ m ⟨r, R⟩ hlook1
  have huniq := nodupKeys_unique _ m ⟨r, R⟩ hkeys1 hmem1
  simp only [roundStep, if_neg hne]
  constructor
  · constructor
    · intro hmm
      rw [List.map_map] at hmm
      obtain ⟨p, hp, hpm⟩ := List.mem_map.mp hmm
      have hpcond := List.mem_filter.mp hp
      have hp1 : p.1 = m := hpm
      have hpe := huniq p hpcond.1 hp1
      have hcond := hpcond.2
      rw [hpe] at hcond
      simpa using hcond
    · intro hrnd
      rw [List.map_map]
      apply List.mem_map.mpr
      refine ⟨(m, ⟨r, R⟩), ?_, rfl⟩
      apply List.mem_filter.mpr
      exact ⟨hmem1, by simpa using hrnd⟩
  · apply lookupC_eq_none
    intro p hp hpm
    have hpf := List.mem_filter.mp hp
    have hpe := huniq p hpf.1 hpm
    have hcond := hpf.2
    rw [hpe] at hcond
    simp only [Bool.not_eq_eq_eq_not, Bool.not_true, Bool.or_eq_false_iff,
      beq_eq_false_iff_ne, ne_eq, decide_eq_false_iff_not, not_lt] at hcond
    omega

/-- Concrete candidate state used to witness C7: market 10 registered at
round 5 with rank 3, present in the previous top list. -/
def c7st : GState := { prevTop := [10, 11], candidates := [(10, ⟨3, 5⟩)] }

/-- C7 witness: at round 6 (= 5 + 1) market 10 is evaluated and removed; the
round-6 top list ranks it first. -/
theorem c7_witness :
    ((10 ∈ (roundStep c7st 6 [10, 12]).evals.map Prod.fst) ↔ 6 = 5 + 1) ∧
    lookupC (roundStep c7st 6 [10, 12]).state.candidates 10 = none :=
  c7_candidate_expiry c7st 6 10 3 5 [10, 12] (by decide) rfl (by decide) (by decide)

end Gainer
